import Mathlib

/-!
# Verification of the recyclarr-configurator core

A shallow embedding of the algorithmic core of the repository:

* `src/core/data_manager.py` — catalog loading/indexing and the include
  resolver (`load_data`, `_index_custom_formats`, `get_any_template_or_include`,
  `resolve_template_includes`, `get_include_data`);
* `src/ui/widgets/cf_editor.py` — the score-inference heuristic
  (`_infer_score`) and the baseline loader (`load_assignments_from_template`);
* `src/core/yaml_generator.py` — the output compiler
  (`_generate_instance_config`).

Python dicts with a fixed key set are modelled as structures whose fields are
`Option`-valued when the source reads them with `.get`; dicts used as mutable
maps are modelled as association lists with insert-or-replace (`upsert`)
semantics (CPython dicts preserve insertion order, which the association list
mirrors); strings are Lean `String`s, manipulated at the `List Char` level
where the source does character work.
-/

namespace RecyclarrConfigurator

/-! ## Character-list string helpers

Python string operations used by `_infer_score`, written out on `List Char`
so that every definition is executable and kernel-reducible. -/

/-- `listStartsWith n h` is true when `n` is an initial segment of `h`. -/
def listStartsWith : List Char → List Char → Bool
  | [], _ => true
  | _ :: _, [] => false
  | a :: as, b :: bs => a = b && listStartsWith as bs

/-- Python's `n in h` substring test. -/
def listSubstr (n : List Char) : List Char → Bool
  | [] => listStartsWith n []
  | c :: rest => listStartsWith n (c :: rest) || listSubstr n rest

/-- Fuelled worker for `replaceAll`; the fuel is the haystack length, which is
always sufficient because every step consumes at least one character. -/
def replaceAllGo (pat repl : List Char) : Nat → List Char → List Char
  | _, [] => []
  | 0, s => s
  | fuel + 1, c :: rest =>
    if listStartsWith pat (c :: rest) && !pat.isEmpty then
      repl ++ replaceAllGo pat repl fuel ((c :: rest).drop pat.length)
    else
      c :: replaceAllGo pat repl fuel rest

/-- Python's `s.replace(pat, repl)`: left-to-right, non-overlapping. -/
def replaceAll (pat repl s : List Char) : List Char :=
  replaceAllGo pat repl s.length s

/-- Python's `s.split('-')` (keeps empty fields, `"" → [""]`). -/
def splitDash : List Char → List (List Char)
  | [] => [[]]
  | c :: rest =>
    if c = '-' then [] :: splitDash rest
    else
      match splitDash rest with
      | [] => [[c]]
      | t :: ts => (c :: t) :: ts

/-- `profile_name.lower().replace(" ", "-").replace("_", "-")` from
`_infer_score` (src/ui/widgets/cf_editor.py line 346). -/
def pyNormalize (s : String) : List Char :=
  ((s.toList.map Char.toLower).map (fun c => if c = ' ' then '-' else c)).map
    (fun c => if c = '_' then '-' else c)

/-! ## The score-inference heuristic (`CFEditor._infer_score`)

src/ui/widgets/cf_editor.py lines 340-378.  A score table is the
`trash_scores` dict: an association list `List (String × Int)` in table
order. -/

/-- The alias substitution of `_infer_score`: `k_norm.replace("french", "fr")`. -/
def aliasOf (k_norm : List Char) : List Char :=
  replaceAll "french".toList "fr".toList k_norm

/-- `[t for t in k_alias.split('-') if t not in ['hq', 'hd']]`. -/
def tokensOf (k_alias : List Char) : List (List Char) :=
  (splitDash k_alias).filter (fun t => !(t == "hq".toList || t == "hd".toList))

/-- The three matching checks of `_infer_score` for one (already normalised)
key against the normalised profile name, with the early-`return` chain of the
source rendered as an `if`-cascade:
1. containment of the key or its alias (`"french" → "fr"`) in the name;
2. token subset after discarding `"hq"`/`"hd"`;
3. special-case tokens `"vostfr"`/`"vf"`/`"vo"` as exact hyphen-delimited
   tokens of the name. -/
def keyStepMatch (k_norm p_norm : List Char) : Bool :=
  if listSubstr k_norm p_norm || listSubstr (aliasOf k_norm) p_norm then true
  else if !(tokensOf (aliasOf k_norm)).isEmpty
      && (tokensOf (aliasOf k_norm)).all (fun t => listSubstr t p_norm) then true
  else if (aliasOf k_norm == "vostfr".toList || aliasOf k_norm == "vf".toList
        || aliasOf k_norm == "vo".toList)
      && (splitDash p_norm).contains (aliasOf k_norm) then true
  else false

/-- The `for key, sc in trash_scores.items()` loop of `_infer_score`:
skip `"default"`, normalise the key with `key.lower()` only, first match
returns its score. -/
def inferScan (p_norm : List Char) : List (String × Int) → Option Int
  | [] => none
  | (key, sc) :: rest =>
    if key == "default" then inferScan p_norm rest
    else if keyStepMatch (key.toList.map Char.toLower) p_norm then some sc
    else inferScan p_norm rest

/-- `CFEditor._infer_score(cf_data, profile_name, default_score)` restricted
to the only field of `cf_data` it reads, `trash_scores`. -/
def infer_score (trash_scores : List (String × Int)) (profile_name : String)
    (default_score : Int) : Int :=
  if trash_scores.isEmpty then default_score
  else (inferScan (pyNormalize profile_name) trash_scores).getD default_score

/-- `trash_scores.get('default', 0)`, the default score its callers compute. -/
def tableDefault (table : List (String × Int)) : Int :=
  ((table.find? (fun p => p.1 == "default")).map Prod.snd).getD 0

/-- The heuristic as its callers invoke it:
`_infer_score(cf_data, name, trash_scores.get('default', 0))`. -/
def infer (table : List (String × Int)) (name : String) : Int :=
  infer_score table name (tableDefault table)

/-! Spec-side variants of the heuristic, for the refinement claims.  The
matching steps 3a(alias)-3d of spec §4.3, written from the spec's words over
an already-normalised key; the variants below differ only in how the key is
normalised before those steps. -/

/-- Spec §4.3 steps 3a(alias)-3d as one matcher over a normalised key. -/
def specMatchSteps (k_norm p_norm : List Char) : Bool :=
  (listSubstr k_norm p_norm || listSubstr (aliasOf k_norm) p_norm)
  || (!(tokensOf (aliasOf k_norm)).isEmpty
      && (tokensOf (aliasOf k_norm)).all (fun t => listSubstr t p_norm))
  || ((aliasOf k_norm == "vostfr".toList || aliasOf k_norm == "vf".toList
        || aliasOf k_norm == "vo".toList)
      && (splitDash p_norm).contains (aliasOf k_norm))

/-- The heuristic as spec §4.3 step 3a words it: every key is normalised
"the same way" as the target name (lowercase, spaces and underscores to
hyphens) before alias substitution and matching. -/
def inferSpecNorm (table : List (String × Int)) (name : String) : Int :=
  match table.find? (fun e =>
      !(e.1 == "default") && specMatchSteps (pyNormalize e.1) (pyNormalize name)) with
  | some e => e.2
  | none => tableDefault table

/-- The amended reading: keys are lowercased only (no space/underscore
replacement) before alias substitution and matching. -/
def inferLowerNorm (table : List (String × Int)) (name : String) : Int :=
  match table.find? (fun e =>
      !(e.1 == "default")
        && specMatchSteps (e.1.toList.map Char.toLower) (pyNormalize name)) with
  | some e => e.2
  | none => tableDefault table

lemma if_cascade_eq_or (a b c : Bool) :
    (if a then true else if b then true else if c then true else false)
      = (a || b || c) := by
  cases a <;> cases b <;> cases c <;> rfl

lemma keyStepMatch_eq_specMatchSteps (k p : List Char) :
    keyStepMatch k p = specMatchSteps k p := by
  show (if _ then true else if _ then true else if _ then true else false) = _
  rw [if_cascade_eq_or]
  rfl

/-- The scan equals a `find?` over non-default keys with the step matcher. -/
lemma inferScan_eq_find (p_norm : List Char) (table : List (String × Int)) :
    inferScan p_norm table =
      (table.find? (fun e => !(e.1 == "default")
        && specMatchSteps (e.1.toList.map Char.toLower) p_norm)).map Prod.snd := by
  induction table with
  | nil => rfl
  | cons hd tl ih =>
    obtain ⟨key, sc⟩ := hd
    by_cases hd : key = "default"
    · have hk : (key == "default") = true := by simp [hd]
      simp [inferScan, hk, ih]
    · have hk : (key == "default") = false := by simp [hd]
      cases hm : keyStepMatch (key.toList.map Char.toLower) p_norm
      · have hs := (keyStepMatch_eq_specMatchSteps
          (key.toList.map Char.toLower) p_norm).symm.trans hm
        have hm' : keyStepMatch (List.map Char.toLower key.data) p_norm = false := hm
        rw [List.find?_cons_of_neg _ (by simp [hk]; exact hs)]
        simp [inferScan, hk, hm', ih]
      · have hs := (keyStepMatch_eq_specMatchSteps
          (key.toList.map Char.toLower) p_norm).symm.trans hm
        have hm' : keyStepMatch (List.map Char.toLower key.data) p_norm = true := hm
        rw [List.find?_cons_of_pos _ (by simp [hk]; exact hs)]
        simp [inferScan, hk, hm']

/-- The code agrees with the lower-case-only reading of key normalisation. -/
lemma infer_eq_inferLowerNorm (table : List (String × Int)) (name : String) :
    infer table name = inferLowerNorm table name := by
  cases table with
  | nil => rfl
  | cons hd tl =>
    show (inferScan (pyNormalize name) (hd :: tl)).getD (tableDefault (hd :: tl))
        = inferLowerNorm (hd :: tl) name
    rw [inferScan_eq_find]
    unfold inferLowerNorm
    cases hf : (hd :: tl).find? (fun e => !(e.1 == "default")
        && specMatchSteps (e.1.toList.map Char.toLower) (pyNormalize name)) with
    | none => rfl
    | some e => rfl

/-- A scan over a table none of whose non-default keys matches yields nothing. -/
lemma inferScan_eq_none (p_norm : List Char) (table : List (String × Int))
    (h : ∀ q ∈ table, q.1 ≠ "default" →
      keyStepMatch (q.1.toList.map Char.toLower) p_norm = false) :
    inferScan p_norm table = none := by
  induction table with
  | nil => rfl
  | cons hd tl ih =>
    obtain ⟨key, sc⟩ := hd
    have htl : ∀ q ∈ tl, q.1 ≠ "default" →
        keyStepMatch (q.1.toList.map Char.toLower) p_norm = false :=
      fun q hq hne => h q (List.mem_cons_of_mem _ hq) hne
    by_cases hk : key = "default"
    · have hb : (key == "default") = true := by simp [hk]
      simpa [inferScan, hb] using ih htl
    · have hb : (key == "default") = false := by simp [hk]
      have hm := h (key, sc) (List.mem_cons_self _ _) hk
      have hm' : keyStepMatch (List.map Char.toLower key.data) p_norm = false := hm
      simpa [inferScan, hb, hm'] using ih htl

/-- C2 counterexample: the claim states that score-table keys are normalised
like the target name (spaces and underscores to hyphens).  The code only
lowercases keys (`k_norm = key.lower()`, src/ui/widgets/cf_editor.py
line 358), so the key `"fr_vostfr"` fails to match the target
`"fr-vostfr"`, while the spec-normalised reading matches it. -/
theorem c2_key_normalization_counterexample :
    infer [("default", 0), ("fr_vostfr", 50)] "fr-vostfr" = 0
    ∧ inferSpecNorm [("default", 0), ("fr_vostfr", 50)] "fr-vostfr" = 50 := by
  constructor <;> decide

/-- C2 (amended): for every score-table key, the normalisation applied before
the alias substitution and the matching steps is lowercasing only — spaces
and underscores in keys are left untouched.  The heuristic coincides with the
spec-style matcher run on lowercased keys. -/
theorem c2_key_normalization_amended (table : List (String × Int)) (name : String) :
    infer table name = inferLowerNorm table name :=
  infer_eq_inferLowerNorm table name

/-- C3: the heuristic's default fallback and the spec's two concrete test
vectors.  When no non-default key passes any of the matching steps, `infer`
returns the table's `"default"` entry (0 when absent); the two §8 vectors
return 50 (alias containment) and 80 (token subset after discarding
`"hq"`). -/
theorem c3_infer_default_and_vectors :
    (∀ (table : List (String × Int)) (name : String),
      (∀ q ∈ table, q.1 ≠ "default" →
        keyStepMatch (q.1.toList.map Char.toLower) (pyNormalize name) = false) →
      infer table name = tableDefault table)
    ∧ infer [("default", 0), ("french-vostfr", 50)] "FR-VOSTFR-WEB-1080p" = 50
    ∧ infer [("default", 0), ("hq-fr-web", 80)] "fr-web-1080p" = 80 := by
  refine ⟨?_, by decide, by decide⟩
  intro table name h
  cases table with
  | nil => rfl
  | cons hd tl =>
    have hn := inferScan_eq_none (pyNormalize name) (hd :: tl) h
    simp [infer, infer_score, hn]

/-- Witness for C3's universally-quantified part at a concrete no-match
table. -/
theorem c3_infer_default_witness :
    infer [("default", 7), ("zzz", 1)] "abc"
        = tableDefault [("default", 7), ("zzz", 1)]
    ∧ tableDefault [("default", 7), ("zzz", 1)] = 7 :=
  ⟨c3_infer_default_and_vectors.1 [("default", 7), ("zzz", 1)] "abc" (by decide),
   by decide⟩

/-! ## The include resolver (`DataManager.resolve_template_includes`)

src/core/data_manager.py lines 111-157, together with its lookup helpers
(lines 74-109).  Embedded item definitions (the elements of a
`custom_formats` list) are opaque to the resolver, so the embedding is
polymorphic in their type `α`. -/

/-- One element of an `include` list: `{"template": ...}`. -/
structure IncludeRef where
  template : Option String := none
deriving DecidableEq

/-- The fields `resolve_template_includes` reads off `item.get("content", item)`. -/
structure ContentNode (α : Type) where
  custom_formats : Option (List α) := none
  includeRefs : Option (List IncludeRef) := none
deriving DecidableEq

/-- A template or include entry, as the resolver reads it: `name`,
top-level `custom_formats`, optional `content` wrapper, and a top-level
`include` list (modelled as `includeRefs`). -/
structure CatItem (α : Type) where
  name : Option String := none
  custom_formats : Option (List α) := none
  content : Option (ContentNode α) := none
  includeRefs : Option (List IncludeRef) := none
deriving DecidableEq

/-- One app's slice of `templates.json`: `{"templates": [...], "includes": {...}}`. -/
structure AppTemplates (α : Type) where
  templates : Option (List (CatItem α)) := none
  includes : Option (List (String × List (CatItem α))) := none
deriving DecidableEq

/-- `DataManager.templates`: the whole templates document, keyed by app. -/
abbrev TemplatesDoc (α : Type) := List (String × AppTemplates α)

/-- `get_templates_for_app`: `self.templates.get(app, {}).get("templates", [])`. -/
def get_templates_for_app (doc : TemplatesDoc α) (app : String) : List (CatItem α) :=
  (((doc.find? (fun p => p.1 == app)).map Prod.snd).bind (·.templates)).getD []

/-- `get_app_includes`: `self.templates.get(app, {}).get("includes", {})`. -/
def get_app_includes (doc : TemplatesDoc α) (app : String) :
    List (String × List (CatItem α)) :=
  (((doc.find? (fun p => p.1 == app)).map Prod.snd).bind (·.includes)).getD []

/-- `get_any_template_or_include`: top-level templates first, then every
include category in document order — first match wins. -/
def get_any_template_or_include (doc : TemplatesDoc α) (app : String)
    (name : String) : Option (CatItem α) :=
  match (get_templates_for_app doc app).find? (fun t => t.name == some name) with
  | some t => some t
  | none =>
    ((get_app_includes doc app).flatMap Prod.snd).find? (fun i => i.name == some name)

/-- `item.get("content", item)` followed by reads of `data_node`:
unwrap exactly one `content` level, or use the item's own fields. -/
def dataNode (it : CatItem α) : ContentNode α :=
  match it.content with
  | some c => c
  | none => { custom_formats := it.custom_formats, includeRefs := it.includeRefs }

/-- `[inc.get("template") for inc in l if inc.get("template")]` — Python
truthiness drops both missing and empty-string template names. -/
def queueOfIncludes (l : List IncludeRef) : List String :=
  l.filterMap (fun r => match r.template with
    | some s => if s = "" then none else some s
    | none => none)

/-- All names under which `get_any_template_or_include` can find an item;
used only as the termination measure of the traversal. -/
def catalogNames (doc : TemplatesDoc α) (app : String) : List String :=
  (get_templates_for_app doc app).filterMap (·.name)
    ++ ((get_app_includes doc app).flatMap Prod.snd).filterMap (·.name)

lemma length_filter_notMem_cons_le (l : List String) (n : String) (v : List String) :
    (l.filter (fun x => decide (x ∉ n :: v))).length
      ≤ (l.filter (fun x => decide (x ∉ v))).length := by
  refine List.Sublist.length_le ?_
  refine List.monotone_filter_right l ?_
  intro a ha
  simp only [decide_eq_true_eq] at ha ⊢
  exact fun hm => ha (List.mem_cons_of_mem _ hm)

lemma length_filter_notMem_cons_lt (l : List String) {n : String} (v : List String)
    (hl : n ∈ l) (hv : n ∉ v) :
    (l.filter (fun x => decide (x ∉ n :: v))).length
      < (l.filter (fun x => decide (x ∉ v))).length := by
  have hsub : List.Sublist (l.filter (fun x => decide (x ∉ n :: v)))
      (l.filter (fun x => decide (x ∉ v))) := by
    refine List.monotone_filter_right l ?_
    intro a ha
    simp only [decide_eq_true_eq] at ha ⊢
    exact fun hm => ha (List.mem_cons_of_mem _ hm)
  refine Nat.lt_of_le_of_ne hsub.length_le (fun heq => ?_)
  have heq2 := hsub.eq_of_length heq
  have hmemq : n ∈ l.filter (fun x => decide (x ∉ v)) :=
    List.mem_filter.mpr ⟨hl, by simpa using hv⟩
  rw [← heq2, List.mem_filter] at hmemq
  have h2 := hmemq.2
  simp only [decide_eq_true_eq, List.mem_cons, not_or] at h2
  exact h2.1 trivial

/-- A successful lookup's name occurs in `catalogNames`. -/
lemma mem_catalogNames_of_found {doc : TemplatesDoc α} {app n : String}
    {item : CatItem α} (h : get_any_template_or_include doc app n = some item) :
    n ∈ catalogNames doc app := by
  unfold get_any_template_or_include at h
  unfold catalogNames
  cases hf : (get_templates_for_app doc app).find? (fun t => t.name == some n) with
  | some t =>
    rw [hf] at h
    have hp := List.find?_some hf
    have hmem := List.mem_of_find?_eq_some hf
    refine List.mem_append_left _ ?_
    exact List.mem_filterMap.mpr ⟨t, hmem, by simpa using hp⟩
  | none =>
    rw [hf] at h
    have hp := List.find?_some h
    have hmem := List.mem_of_find?_eq_some h
    refine List.mem_append_right _ ?_
    exact List.mem_filterMap.mpr ⟨item, hmem, by simpa using hp⟩

lemma prodLex_of_le_of_lt {a a' b b' : Nat} (h1 : a' ≤ a) (h2 : b' < b) :
    Prod.Lex (· < ·) (· < ·) (a', b') (a, b) := by
  rcases Nat.lt_or_ge a' a with h | h
  · exact Prod.Lex.left _ _ h
  · have : a' = a := Nat.le_antisymm h1 h
    subst this
    exact Prod.Lex.right _ h2

/-- The `while queue:` loop of `resolve_template_includes` (lines 127-156):
pop a name, skip it when visited, mark it visited, look it up; on success
extend the result with the item's top-level `custom_formats` and enqueue the
`include` references of its (single-level) content node.  Total by
well-founded recursion on (unvisited catalog names, queue length) — this is
the cycle-safety argument of the source. -/
def resolveLoop (doc : TemplatesDoc α) (app : String) :
    List String → List String → List α → List α
  | _, [], acc => acc
  | visited, n :: rest, acc =>
    if hv : n ∈ visited then resolveLoop doc app visited rest acc
    else
      match hl : get_any_template_or_include doc app n with
      | none => resolveLoop doc app (n :: visited) rest acc
      | some item =>
        resolveLoop doc app (n :: visited)
          (rest ++ queueOfIncludes ((dataNode item).includeRefs.getD []))
          (acc ++ item.custom_formats.getD [])
termination_by visited queue _ =>
  (((catalogNames doc app).filter (fun x => decide (x ∉ visited))).length,
    queue.length)
decreasing_by
  · exact Prod.Lex.right _ (Nat.lt_succ_self _)
  · exact prodLex_of_le_of_lt
      (length_filter_notMem_cons_le (catalogNames doc app) n visited)
      (Nat.lt_succ_self _)
  · exact Prod.Lex.left _ _
      (length_filter_notMem_cons_lt (catalogNames doc app) visited
        (mem_catalogNames_of_found hl) hv)

/-- `resolve_template_includes(app, root_template)`: collect the root's own
top-level `custom_formats`, seed `processed_names` with the root's name and
the queue with its truthy `include` references, then run the loop. -/
def resolve_template_includes (doc : TemplatesDoc α) (app : String)
    (root : CatItem α) : List α :=
  resolveLoop doc app root.name.toList
    (queueOfIncludes (root.includeRefs.getD []))
    (root.custom_formats.getD [])

lemma resolveLoop_nil (doc : TemplatesDoc α) (app : String)
    (visited : List String) (acc : List α) :
    resolveLoop doc app visited [] acc = acc := by
  unfold resolveLoop
  rfl

lemma resolveLoop_visited (doc : TemplatesDoc α) (app : String)
    {visited : List String} {n : String} (rest : List String) (acc : List α)
    (h : n ∈ visited) :
    resolveLoop doc app visited (n :: rest) acc
      = resolveLoop doc app visited rest acc := by
  conv_lhs => unfold resolveLoop
  rw [dif_pos h]

lemma resolveLoop_not_found (doc : TemplatesDoc α) (app : String)
    {visited : List String} {n : String} (rest : List String) (acc : List α)
    (h : n ∉ visited) (hl : get_any_template_or_include doc app n = none) :
    resolveLoop doc app visited (n :: rest) acc
      = resolveLoop doc app (n :: visited) rest acc := by
  conv_lhs => unfold resolveLoop
  rw [dif_neg h]
  split
  · rfl
  · rename_i item heq
    rw [hl] at heq
    cases heq

lemma resolveLoop_found (doc : TemplatesDoc α) (app : String)
    {visited : List String} {n : String} (rest : List String) (acc : List α)
    {item : CatItem α} (h : n ∉ visited)
    (hl : get_any_template_or_include doc app n = some item) :
    resolveLoop doc app visited (n :: rest) acc
      = resolveLoop doc app (n :: visited)
          (rest ++ queueOfIncludes ((dataNode item).includeRefs.getD []))
          (acc ++ item.custom_formats.getD []) := by
  conv_lhs => unfold resolveLoop
  rw [dif_neg h]
  split
  · rename_i heq
    rw [hl] at heq
    cases heq
  · rename_i item2 heq
    rw [hl] at heq
    cases heq
    rfl

/-! Concrete catalogs for the resolver claims. -/

/-- Template A of the two-cycle example: embeds `"cfA"`, includes B. -/
def cycA : CatItem String :=
  { name := some "A", custom_formats := some ["cfA"],
    includeRefs := some [{ template := some "B" }] }

/-- Template B of the two-cycle example: embeds `"cfB"`, includes A. -/
def cycB : CatItem String :=
  { name := some "B", custom_formats := some ["cfB"],
    includeRefs := some [{ template := some "A" }] }

/-- A catalog whose include graph is the two-cycle A ↔ B. -/
def cycDoc : TemplatesDoc String :=
  [("radarr", { templates := some [cycA, cycB], includes := none })]

/-- An include whose embedded items live only inside its `content` wrapper. -/
def wrapItem : CatItem String :=
  { name := some "W",
    content := some { custom_formats := some ["hidden"], includeRefs := none } }

/-- A root template whose single include reference names `wrapItem`. -/
def rootR : CatItem String :=
  { name := some "R", includeRefs := some [{ template := some "W" }] }

/-- Catalog holding `rootR` as a template and `wrapItem` in an include
category. -/
def wrapDoc : TemplatesDoc String :=
  [("radarr",
    { templates := some [rootR],
      includes := some [("quality-profiles", [wrapItem])] })]

/-- C1 counterexample: the claim says the resolver appends the **content
node's** embedded items.  For an item found during traversal whose embedded
items sit inside its `content` wrapper, the code checks `"custom_formats" in
item` at the item's top level (src/core/data_manager.py line 136) and so
collects nothing: the content node exposes `["hidden"]`, yet the resolved
list is empty. -/
theorem c1_content_items_counterexample :
    resolve_template_includes wrapDoc "radarr" rootR = []
    ∧ (dataNode wrapItem).custom_formats = some ["hidden"]
    ∧ "hidden" ∉ resolve_template_includes wrapDoc "radarr" rootR := by
  have h1 : resolve_template_includes wrapDoc "radarr" rootR = [] := by
    show resolveLoop wrapDoc "radarr" ["R"] ["W"] [] = []
    rw [resolveLoop_found wrapDoc "radarr" [] [] (by decide)
      (show get_any_template_or_include wrapDoc "radarr" "W" = some wrapItem by decide)]
    show resolveLoop wrapDoc "radarr" ["W", "R"] [] [] = []
    exact resolveLoop_nil wrapDoc "radarr" ["W", "R"] []
  refine ⟨h1, rfl, ?_⟩
  rw [h1]
  simp

/-- C1 (amended): when an unvisited include name resolves to an item, one
loop step appends the item's **top-level** embedded items (items inside a
`content` wrapper are not appended) and enqueues the include references of
the item's single-level content node; no second namespace/instance unwrap is
performed. -/
theorem c1_resolver_step_amended (doc : TemplatesDoc α) (app : String)
    {visited : List String} {n : String} (rest : List String) (acc : List α)
    {item : CatItem α} (h : n ∉ visited)
    (hl : get_any_template_or_include doc app n = some item) :
    resolveLoop doc app visited (n :: rest) acc
      = resolveLoop doc app (n :: visited)
          (rest ++ queueOfIncludes ((dataNode item).includeRefs.getD []))
          (acc ++ item.custom_formats.getD []) :=
  resolveLoop_found doc app rest acc h hl

/-- Witness for `c1_resolver_step_amended` at a concrete unvisited name. -/
theorem c1_resolver_step_amended_witness :
    ("W" ∉ (["R"] : List String))
    ∧ get_any_template_or_include wrapDoc "radarr" "W" = some wrapItem
    ∧ resolveLoop wrapDoc "radarr" ["R"] ["W"] ([] : List String)
        = resolveLoop wrapDoc "radarr" ["W", "R"]
            ([] ++ queueOfIncludes ((dataNode wrapItem).includeRefs.getD []))
            ([] ++ wrapItem.custom_formats.getD []) :=
  ⟨by decide, by decide,
    c1_resolver_step_amended wrapDoc "radarr" [] [] (by decide) (by decide)⟩

/-- C4: the traversal terminates on every finite catalog — `resolveLoop` is
total, by well-founded recursion on (unvisited catalog names, queue length),
which is exactly the source's `processed_names` cycle argument — and on the
two-cycle A ↔ B it returns A's and B's embedded items exactly once each, in
discovery order. -/
theorem c4_cycle_terminates_each_item_once :
    resolve_template_includes cycDoc "radarr" cycA = ["cfA", "cfB"] := by
  show resolveLoop cycDoc "radarr" ["A"] ["B"] ["cfA"] = ["cfA", "cfB"]
  rw [resolveLoop_found cycDoc "radarr" [] ["cfA"] (by decide)
    (show get_any_template_or_include cycDoc "radarr" "B" = some cycB by decide)]
  show resolveLoop cycDoc "radarr" ["B", "A"] ["A"] ["cfA", "cfB"] = ["cfA", "cfB"]
  rw [resolveLoop_visited cycDoc "radarr" [] ["cfA", "cfB"] (by decide)]
  exact resolveLoop_nil cycDoc "radarr" ["B", "A"] ["cfA", "cfB"]

/-! ## Catalog loading and the id index (`DataManager.load_data`,
`_index_custom_formats`, `get_cf_by_id`, `get_include_data`)

src/core/data_manager.py lines 22-97.  Mutable Python dicts
(`self.cf_by_id`) are association lists with `upsert`; the filesystem is a
pair of `FileState`s (missing file, file whose `json.load` raises, or a
parsed document). -/

/-- Python dict assignment `m[k] = v` on an association list. -/
def upsert {K V : Type} [DecidableEq K] (m : List (K × V)) (k : K) (v : V) :
    List (K × V) :=
  if m.any (fun e => decide (e.1 = k)) then
    m.map (fun e => if e.1 = k then (k, v) else e)
  else m ++ [(k, v)]

/-- Python dict lookup `m.get(k)` on an association list. -/
def lookupA {K V : Type} [DecidableEq K] (m : List (K × V)) (k : K) : Option V :=
  (m.find? (fun e => decide (e.1 = k))).map Prod.snd

/-- One entry of a `formats` list: the resolver only reads `trash_id` and
carries the rest of the object along (`name` stands for that payload). -/
structure CFItem where
  trash_id : Option String := none
  name : Option String := none
deriving DecidableEq

/-- `{**cf, "app": app}` — the indexed value. -/
structure IndexedCF where
  item : CFItem
  app : String
deriving DecidableEq

/-- One app's slice of the custom-formats document. -/
structure CFAppData where
  formats : Option (List CFItem) := none
deriving DecidableEq

/-- The `custom_formats.json` document: `{"custom_formats": {app: {...}}}`. -/
structure CFDoc where
  custom_formats : Option (List (String × CFAppData)) := none
deriving DecidableEq

/-- The inner loop of `_index_custom_formats`: index every format of one app
that has a truthy `trash_id` (absent or empty ids are skipped). -/
def indexFormats (app : String) (acc : List (String × IndexedCF)) :
    List CFItem → List (String × IndexedCF)
  | [] => acc
  | cf :: rest =>
    match cf.trash_id with
    | some tid =>
      if tid = "" then indexFormats app acc rest
      else indexFormats app (upsert acc tid { item := cf, app := app }) rest
    | none => indexFormats app acc rest

/-- The outer loop of `_index_custom_formats`: every app except
`"guide-only"`. -/
def indexApps (acc : List (String × IndexedCF)) :
    List (String × CFAppData) → List (String × IndexedCF)
  | [] => acc
  | (app, ad) :: rest =>
    if app = "guide-only" then indexApps acc rest
    else indexApps (indexFormats app acc (ad.formats.getD [])) rest

/-- The mutable state of a `DataManager`, generic in the resolver's embedded
item type. -/
structure DataManager (α : Type) where
  custom_formats : CFDoc := {}
  templates : TemplatesDoc α := []
  cf_by_id : List (String × IndexedCF) := []
deriving DecidableEq

/-- `_index_custom_formats`: extends the existing index (the source never
clears `self.cf_by_id`). -/
def index_custom_formats (m : DataManager α) : DataManager α :=
  { m with cf_by_id := indexApps m.cf_by_id (m.custom_formats.custom_formats.getD []) }

/-- The observable outcome of reading one JSON file in `load_data`. -/
inductive FileState (β : Type) where
  | missing
  | malformed
  | valid (doc : β)
deriving DecidableEq

/-- `load_data`: load and index the custom-formats document, then load the
templates document; any missing file or `json.load` exception returns
`False`, leaving whatever had already been assigned in place. -/
def load_data (m : DataManager α) (cfFile : FileState CFDoc)
    (tplFile : FileState (TemplatesDoc α)) : DataManager α × Bool :=
  match cfFile with
  | .missing => (m, false)
  | .malformed => (m, false)
  | .valid doc =>
    let m1 := index_custom_formats { m with custom_formats := doc }
    match tplFile with
    | .missing => (m1, false)
    | .malformed => (m1, false)
    | .valid t => ({ m1 with templates := t }, true)

/-- `get_cf_by_id`: `self.cf_by_id.get(trash_id)`. -/
def get_cf_by_id (m : DataManager α) (tid : String) : Option IndexedCF :=
  lookupA m.cf_by_id tid

/-- `get_include_data` (src/core/data_manager.py lines 95-97): the function
body consists only of its docstring and a comment, so it returns `None`
unconditionally. -/
def get_include_data (_m : DataManager α) (_app _include_name : String) :
    Option (CatItem α) :=
  none

/-- A looked-up value was stored in the association list. -/
lemma lookupA_mem {K V : Type} [DecidableEq K] {m : List (K × V)} {k : K}
    {v : V} (h : lookupA m k = some v) : ∃ p ∈ m, p.2 = v := by
  unfold lookupA at h
  cases hf : m.find? (fun e => decide (e.1 = k)) with
  | none => rw [hf] at h; cases h
  | some p =>
    rw [hf] at h
    exact ⟨p, List.mem_of_find?_eq_some hf, by simpa using h⟩

/-- `upsert` preserves a property of all stored values. -/
lemma upsert_forall {K V : Type} [DecidableEq K] {P : V → Prop}
    {m : List (K × V)} {k : K} {v : V}
    (hm : ∀ p ∈ m, P p.2) (hv : P v) : ∀ p ∈ upsert m k v, P p.2 := by
  intro p hp
  unfold upsert at hp
  by_cases hc : m.any (fun e => decide (e.1 = k))
  · rw [if_pos hc] at hp
    obtain ⟨q, hq, hqe⟩ := List.mem_map.mp hp
    by_cases hk : q.1 = k
    · rw [if_pos hk] at hqe
      rw [← hqe]
      exact hv
    · rw [if_neg hk] at hqe
      rw [← hqe]
      exact hm q hq
  · rw [if_neg hc] at hp
    rcases List.mem_append.mp hp with h1 | h1
    · exact hm p h1
    · rw [List.mem_singleton.mp h1]
      exact hv

/-- `indexFormats` only stores values tagged with its own `app`. -/
lemma indexFormats_forall {P : IndexedCF → Prop} (app : String)
    (hP : ∀ cf : CFItem, P { item := cf, app := app }) :
    ∀ (l : List CFItem) (acc : List (String × IndexedCF)),
      (∀ p ∈ acc, P p.2) → ∀ p ∈ indexFormats app acc l, P p.2 := by
  intro l
  induction l with
  | nil => intro acc hacc p hp; exact hacc p hp
  | cons cf rest ih =>
    intro acc hacc p hp
    unfold indexFormats at hp
    cases hid : cf.trash_id with
    | none => simp only [hid] at hp; exact ih acc hacc p hp
    | some tid =>
      simp only [hid] at hp
      by_cases he : tid = ""
      · rw [if_pos he] at hp
        exact ih acc hacc p hp
      · rw [if_neg he] at hp
        exact ih _ (upsert_forall hacc (hP cf)) p hp

/-- `indexApps` never stores a value tagged `"guide-only"`. -/
lemma indexApps_no_guide_only :
    ∀ (l : List (String × CFAppData)) (acc : List (String × IndexedCF)),
      (∀ p ∈ acc, p.2.app ≠ "guide-only") →
      ∀ p ∈ indexApps acc l, p.2.app ≠ "guide-only" := by
  intro l
  induction l with
  | nil => intro acc hacc p hp; exact hacc p hp
  | cons hd rest ih =>
    intro acc hacc p hp
    obtain ⟨app, ad⟩ := hd
    unfold indexApps at hp
    by_cases hg : app = "guide-only"
    · rw [if_pos hg] at hp
      exact ih acc hacc p hp
    · rw [if_neg hg] at hp
      exact ih _ (indexFormats_forall (P := fun v => v.app ≠ "guide-only") app
        (fun _ => hg) _ acc hacc) p hp

/-- C9: the id index never contains an item of the `"guide-only"` group —
`_index_custom_formats` skips that app (src/core/data_manager.py line 54) —
and, since `load_data` touches the index only through it, the invariant is
preserved by every load from every state satisfying it (in particular from
the empty initial state). -/
theorem c9_guide_only_never_indexed {α : Type} (m : DataManager α)
    (hm : ∀ p ∈ m.cf_by_id, p.2.app ≠ "guide-only")
    (cfFile : FileState CFDoc) (tplFile : FileState (TemplatesDoc α))
    (tid : String) (entry : IndexedCF)
    (h : get_cf_by_id (load_data m cfFile tplFile).1 tid = some entry) :
    entry.app ≠ "guide-only" := by
  have key : ∀ p ∈ (load_data m cfFile tplFile).1.cf_by_id,
      p.2.app ≠ "guide-only" := by
    cases cfFile with
    | missing => exact hm
    | malformed => exact hm
    | valid doc =>
      cases tplFile with
      | missing => exact indexApps_no_guide_only _ _ hm
      | malformed => exact indexApps_no_guide_only _ _ hm
      | valid t => exact indexApps_no_guide_only _ _ hm
  obtain ⟨p, hp, hpv⟩ := lookupA_mem h
  rw [← hpv]
  exact key p hp

/-- A custom-formats document holding one guide-only item (with a valid id)
and one radarr item. -/
def cfDocMixed : CFDoc :=
  { custom_formats := some
      [("guide-only", { formats := some [{ trash_id := some "g1", name := some "G" }] }),
       ("radarr", { formats := some [{ trash_id := some "n1", name := some "N" }] })] }

/-- Witness for `c9_guide_only_never_indexed`: loading `cfDocMixed` from the
empty state indexes the radarr item but not the guide-only one. -/
theorem c9_guide_only_never_indexed_witness :
    get_cf_by_id (load_data ({} : DataManager String)
        (.valid cfDocMixed) (.valid [])).1 "g1" = none
    ∧ ({ item := { trash_id := some "n1", name := some "N" }, app := "radarr" }
        : IndexedCF).app ≠ "guide-only" :=
  ⟨by decide,
   c9_guide_only_never_indexed ({} : DataManager String) (by simp)
     (.valid cfDocMixed) (.valid []) "n1"
     { item := { trash_id := some "n1", name := some "N" }, app := "radarr" }
     (by decide)⟩

/-- C6 counterexample: the claim says a failed load leaves the item index and
both documents empty.  When the custom-formats file loads but the templates
file is missing, `load_data` returns `False` **after** populating
`self.custom_formats` and `self.cf_by_id` (src/core/data_manager.py lines
26-43), so a partial catalog is exposed. -/
theorem c6_partial_catalog_counterexample :
    (load_data ({} : DataManager String) (.valid cfDocMixed) .missing).2 = false
    ∧ (load_data ({} : DataManager String) (.valid cfDocMixed) .missing).1.cf_by_id ≠ []
    ∧ (load_data ({} : DataManager String) (.valid cfDocMixed) .missing).1.custom_formats
        ≠ ({} : CFDoc) := by
  refine ⟨by decide, by decide, by decide⟩

/-- C6 (amended): on failure the templates document is never populated, and
when the custom-formats document itself is missing or malformed the whole
state is untouched; but a custom-formats document that loads is exposed
(together with its index) even when the templates load then fails. -/
theorem c6_load_failure_amended {α : Type} (m : DataManager α)
    (cfFile : FileState CFDoc) (tplFile : FileState (TemplatesDoc α))
    (h : (load_data m cfFile tplFile).2 = false) :
    (load_data m cfFile tplFile).1.templates = m.templates
    ∧ ((cfFile = .missing ∨ cfFile = .malformed) →
        (load_data m cfFile tplFile).1 = m) := by
  cases cfFile with
  | missing => exact ⟨rfl, fun _ => rfl⟩
  | malformed => exact ⟨rfl, fun _ => rfl⟩
  | valid doc =>
    refine ⟨?_, by rintro (h1 | h1) <;> cases h1⟩
    cases tplFile with
    | missing => rfl
    | malformed => rfl
    | valid t => cases h

/-- Witness for `c6_load_failure_amended` at a concrete failing load. -/
theorem c6_load_failure_amended_witness :
    (load_data ({} : DataManager String) (.valid cfDocMixed) .missing).1.templates
        = ({} : DataManager String).templates
    ∧ (((.valid cfDocMixed : FileState CFDoc) = .missing
          ∨ (.valid cfDocMixed : FileState CFDoc) = .malformed) →
        (load_data ({} : DataManager String) (.valid cfDocMixed) .missing).1
          = ({} : DataManager String)) :=
  c6_load_failure_amended ({} : DataManager String) (.valid cfDocMixed) .missing
    (by decide)

/-- C10: `get_include_data` returns `None` for every app and include name,
whether or not an include with that name exists in the catalog — its body is
only a docstring, the search it documents was never written. -/
theorem c10_get_include_data_none {α : Type} (m : DataManager α)
    (app include_name : String) :
    get_include_data m app include_name = none :=
  rfl

/-! ## The Assignment Model and the output compiler

`CustomFormatAssignment` and `InstanceConfig` from src/core/models.py;
`YAMLGenerator._generate_instance_config` from src/core/yaml_generator.py
lines 63-187.  The generated YAML mapping (fixed key set, optional keys) is
the structure `InstanceOutput`. -/

/-- `CustomFormatAssignment` (src/core/models.py lines 25-35).  `trash_id`
is optional because `load_assignments_from_template` can store an id looked
up with `cf.get('trash_id')`.  `profile_scores` is the v2 per-target list of
`{"name", "score"}` pairs; `score` and `profiles` are the deprecated legacy
fields. -/
structure CustomFormatAssignment where
  trash_id : Option String
  name : Option String := none
  description : String := ""
  score : Int
  default_score : Int := 0
  profiles : List String
  profile_scores : List (String × Int) := []
deriving DecidableEq

/-- `QualityProfileItem` (models.py lines 4-8). -/
structure QualityProfileItem where
  name : String
  qualities : List String := []
deriving DecidableEq

/-- `QualityProfile` (models.py lines 10-23), restricted to the fields the
generator reads. -/
structure QualityProfile where
  name : String := "New Profile"
  upgrade_allowed : Bool := false
  upgrade_until : String := ""
  min_format_score : Int := 0
  score_set : String := ""
  items : List QualityProfileItem := []
deriving DecidableEq

/-- `InstanceConfig` (models.py lines 37-51). -/
structure InstanceConfig where
  name : String
  base_url : String := ""
  api_key : String := ""
  includes_quality_defs : List String := []
  includes_profiles : List String := []
  includes_cfs : List String := []
  custom_profiles : List QualityProfile := []
  active_cfs : List CustomFormatAssignment := []
deriving DecidableEq

/-- One `custom_formats` output block: `{"trash_ids": [...]}` plus the
optional `assign_scores_to` key. -/
structure CFBlock where
  trash_ids : List (Option String)
  assign_scores_to : Option (List (String × Int)) := none
deriving DecidableEq

/-- One element of a profile's `qualities` list: a group dict or a bare
quality name. -/
inductive QualityEntry where
  | group (name : String) (qualities : List String)
  | leaf (name : String)
deriving DecidableEq

/-- One `quality_profiles` output block with the generator's fixed fields. -/
structure QPBlock where
  name : String
  reset_unmatched_enabled : Bool
  upgrade_allowed : Bool
  upgrade_until : String
  upgrade_until_score : Int
  min_format_score : Int
  quality_sort : String
  score_set : String
  qualities : List QualityEntry
deriving DecidableEq

/-- The YAML mapping returned by `_generate_instance_config`. -/
structure InstanceOutput where
  base_url : String
  api_key : String
  includeTemplates : Option (List String) := none
  custom_formats : Option (List CFBlock) := none
  quality_profiles : Option (List QPBlock) := none
deriving DecidableEq

/-- Lexicographic comparison of strings by code point, Python's `<=` used by
`sorted`. -/
def charListLe : List Char → List Char → Bool
  | [], _ => true
  | _ :: _, [] => false
  | a :: as, b :: bs => if a = b then charListLe as bs else decide (a.val < b.val)

def strLe (a b : String) : Bool := charListLe a.toList b.toList

/-- Insertion into a sorted list; on strings (a total order with antisymmetry)
insertion sort agrees with Python's `sorted`. -/
def insertSorted (a : String) : List String → List String
  | [] => [a]
  | b :: bs => if strLe a b then a :: b :: bs else b :: insertSorted a bs

/-- `sorted(l)` for a list of strings. -/
def sortStrings (l : List String) : List String := l.foldr insertSorted []

/-- The grouping key of the generator:
`(cf.score, tuple(sorted(cf.profiles)))` (yaml_generator.py line 92). -/
def groupKey (cf : CustomFormatAssignment) : Int × List String :=
  (cf.score, sortStrings cf.profiles)

/-- `groups[key].append(trash_id)`, creating the key on first sight:
the dict-of-lists update of yaml_generator.py lines 93-95. -/
def addToGroups (groups : List ((Int × List String) × List (Option String)))
    (key : Int × List String) (tid : Option String) :
    List ((Int × List String) × List (Option String)) :=
  if groups.any (fun e => decide (e.1 = key)) then
    groups.map (fun e => if e.1 = key then (e.1, e.2 ++ [tid]) else e)
  else groups ++ [(key, [tid])]

/-- The grouping loop over `instance.active_cfs` (lines 90-95). -/
def buildGroups (cfs : List CustomFormatAssignment) :
    List ((Int × List String) × List (Option String)) :=
  cfs.foldl (fun g cf => addToGroups g (groupKey cf) cf.trash_id) []

/-- The `custom_formats` entry list built from the groups (lines 98-122):
`assign_scores_to` is present exactly when the profile tuple is non-empty
and replicates the single group score for every profile name. -/
def cfBlocks (cfs : List CustomFormatAssignment) : List CFBlock :=
  (buildGroups cfs).map (fun e =>
    { trash_ids := e.2,
      assign_scores_to :=
        if e.1.2 ≠ [] then some (e.1.2.map (fun p => (p, e.1.1))) else none })

/-- One `quality_profiles` block (lines 129-183): groups render as
`{name, qualities}`, leaves as the bare name. -/
def qpBlockOf (qp : QualityProfile) : QPBlock :=
  { name := qp.name,
    reset_unmatched_enabled := true,
    upgrade_allowed := qp.upgrade_allowed,
    upgrade_until := qp.upgrade_until,
    upgrade_until_score := 10000,
    min_format_score := qp.min_format_score,
    quality_sort := "top",
    score_set := qp.score_set,
    qualities := qp.items.map (fun it =>
      if it.qualities ≠ [] then .group it.name it.qualities else .leaf it.name) }

/-- `_generate_instance_config` (lines 63-187). -/
def generate_instance_config (inst : InstanceConfig) : InstanceOutput :=
  { base_url := if inst.base_url ≠ "" then inst.base_url else "http://localhost:7878",
    api_key := if inst.api_key ≠ "" then inst.api_key else "YOUR_API_KEY",
    includeTemplates :=
      if inst.includes_quality_defs ++ inst.includes_profiles ++ inst.includes_cfs ≠ []
      then some (inst.includes_quality_defs ++ inst.includes_profiles ++ inst.includes_cfs)
      else none,
    custom_formats :=
      if inst.active_cfs ≠ [] then some (cfBlocks inst.active_cfs) else none,
    quality_profiles :=
      if inst.custom_profiles ≠ []
      then some (inst.custom_profiles.map qpBlockOf) else none }

/-- First-seen deduplication with an explicit seen accumulator — the order in
which a Python dict acquires its keys. -/
def firstSeenAux {K : Type} [DecidableEq K] (seen : List K) : List K → List K
  | [] => []
  | k :: rest =>
    if k ∈ seen then firstSeenAux seen rest
    else k :: firstSeenAux (k :: seen) rest

/-- The list of distinct values of `l` in order of first occurrence. -/
def firstSeen {K : Type} [DecidableEq K] (l : List K) : List K :=
  firstSeenAux [] l

lemma mem_firstSeenAux {K : Type} [DecidableEq K] {x : K}
    (seen l : List K) : x ∈ firstSeenAux seen l ↔ x ∈ l ∧ x ∉ seen := by
  induction l generalizing seen with
  | nil => simp [firstSeenAux]
  | cons a rest ih =>
    by_cases ha : a ∈ seen
    · rw [firstSeenAux, if_pos ha, ih]
      by_cases hx : x = a
      · subst hx
        simp [ha]
      · simp [hx]
    · rw [firstSeenAux, if_neg ha]
      by_cases hx : x = a
      · subst hx
        simp [ha]
      · simp [hx, ih]

lemma nodup_firstSeenAux {K : Type} [DecidableEq K] (seen l : List K) :
    (firstSeenAux seen l).Nodup := by
  induction l generalizing seen with
  | nil => simp [firstSeenAux]
  | cons a rest ih =>
    by_cases ha : a ∈ seen
    · rw [firstSeenAux, if_pos ha]
      exact ih seen
    · rw [firstSeenAux, if_neg ha]
      refine List.nodup_cons.mpr ⟨?_, ih (a :: seen)⟩
      intro hmem
      exact ((mem_firstSeenAux (a :: seen) rest).mp hmem).2 (List.mem_cons_self _ _)

lemma firstSeenAux_append_single {K : Type} [DecidableEq K]
    (l : List K) (x : K) :
    ∀ seen, firstSeenAux seen (l ++ [x])
      = firstSeenAux seen l ++ (if x ∈ seen ∨ x ∈ l then [] else [x]) := by
  induction l with
  | nil =>
    intro seen
    by_cases hx : x ∈ seen <;> simp [firstSeenAux, hx]
  | cons a rest ih =>
    intro seen
    by_cases ha : a ∈ seen
    · rw [List.cons_append, firstSeenAux, if_pos ha, firstSeenAux, if_pos ha, ih]
      by_cases hxa : x = a
      · subst hxa
        simp [ha]
      · simp [hxa]
    · rw [List.cons_append, firstSeenAux, if_neg ha, firstSeenAux, if_neg ha,
        ih (a :: seen), List.cons_append]
      by_cases hxa : x = a
      · subst hxa
        simp
      · simp [hxa, or_assoc]

lemma nodup_firstSeen {K : Type} [DecidableEq K] (l : List K) :
    (firstSeen l).Nodup := nodup_firstSeenAux [] l

lemma mem_firstSeen {K : Type} [DecidableEq K] {x : K} (l : List K) :
    x ∈ firstSeen l ↔ x ∈ l := by
  rw [firstSeen, mem_firstSeenAux]
  simp

lemma firstSeen_append_single {K : Type} [DecidableEq K] (l : List K) (x : K) :
    firstSeen (l ++ [x]) = firstSeen l ++ (if x ∈ l then [] else [x]) := by
  rw [firstSeen, firstSeenAux_append_single l x []]
  simp [firstSeen]

/-- What the grouping loop computes, in closed form: one entry per distinct
key, in first-seen order, carrying all matching ids in input order. -/
def groupsRepr (cfs : List CustomFormatAssignment) :
    List ((Int × List String) × List (Option String)) :=
  (firstSeen (cfs.map groupKey)).map (fun k =>
    (k, (cfs.filter (fun c => decide (groupKey c = k))).map (·.trash_id)))

lemma addToGroups_groupsRepr (p : List CustomFormatAssignment)
    (c : CustomFormatAssignment) :
    addToGroups (groupsRepr p) (groupKey c) c.trash_id = groupsRepr (p ++ [c]) := by
  have hmap : (p ++ [c]).map groupKey = p.map groupKey ++ [groupKey c] := by
    simp
  have hany : (groupsRepr p).any (fun e => decide (e.1 = groupKey c))
      = decide (groupKey c ∈ p.map groupKey) := by
    rcases h : decide (groupKey c ∈ p.map groupKey) with _ | _
    · have hnot : groupKey c ∉ p.map groupKey := of_decide_eq_false h
      refine List.any_eq_false.mpr ?_
      intro e he
      obtain ⟨k, hk, hke⟩ := List.mem_map.mp he
      simp only [decide_eq_true_eq]
      intro heq
      rw [← hke] at heq
      simp only at heq
      rw [heq] at hk
      exact hnot ((mem_firstSeen _).mp hk)
    · have hin : groupKey c ∈ p.map groupKey := of_decide_eq_true h
      refine List.any_eq_true.mpr ?_
      refine ⟨(groupKey c,
        (p.filter (fun x => decide (groupKey x = groupKey c))).map (·.trash_id)),
        ?_, by simp⟩
      exact List.mem_map.mpr ⟨groupKey c, (mem_firstSeen _).mpr hin, rfl⟩
  by_cases hk : groupKey c ∈ p.map groupKey
  · have hany' : (groupsRepr p).any (fun e => decide (e.1 = groupKey c)) = true := by
      rw [hany]
      simpa using hk
    rw [addToGroups, if_pos hany']
    unfold groupsRepr
    rw [hmap, firstSeen_append_single, if_pos hk, List.append_nil, List.map_map]
    refine List.map_congr_left ?_
    intro k hkmem
    by_cases hke : k = groupKey c
    · subst hke
      simp only [Function.comp_apply, if_pos rfl]
      rw [List.filter_append]
      simp
    · have hke2 : ¬ groupKey c = k := fun he => hke he.symm
      simp only [Function.comp_apply, if_neg hke]
      rw [List.filter_append]
      simp [hke2]
  · have hany' : (groupsRepr p).any (fun e => decide (e.1 = groupKey c)) = false := by
      rw [hany]
      simpa using hk
    rw [addToGroups, if_neg (by rw [hany']; exact Bool.false_ne_true)]
    unfold groupsRepr
    rw [hmap, firstSeen_append_single, if_neg hk, List.map_append]
    congr 1
    · refine List.map_congr_left ?_
      intro k hkmem
      have hkp : k ∈ p.map groupKey := (mem_firstSeen _).mp hkmem
      have hke2 : ¬ groupKey c = k := by
        intro he
        rw [he] at hk
        exact hk hkp
      rw [List.filter_append]
      simp [hke2]
    · have hnil : p.filter (fun x => decide (groupKey x = groupKey c)) = [] := by
        refine List.filter_eq_nil_iff.mpr ?_
        intro a ha
        simp only [decide_eq_true_eq]
        intro he
        exact hk (List.mem_map.mpr ⟨a, ha, he⟩)
      rw [List.map_singleton, List.filter_append, hnil]
      simp

lemma buildGroups_aux (rest : List CustomFormatAssignment) :
    ∀ p, rest.foldl (fun g cf => addToGroups g (groupKey cf) cf.trash_id)
        (groupsRepr p) = groupsRepr (p ++ rest) := by
  induction rest with
  | nil => intro p; simp
  | cons c rest' ih =>
    intro p
    rw [List.foldl_cons, addToGroups_groupsRepr, ih (p ++ [c])]
    simp

/-- The grouping loop computes `groupsRepr`. -/
lemma buildGroups_eq_groupsRepr (cfs : List CustomFormatAssignment) :
    buildGroups cfs = groupsRepr cfs := by
  have h := buildGroups_aux cfs []
  have h0 : groupsRepr [] = [] := rfl
  rw [h0] at h
  simpa [buildGroups] using h

/-- Ordering on (targetName, score) pairs: by name, then score. -/
def pairLe (a b : String × Int) : Bool :=
  if a.1 = b.1 then decide (a.2 ≤ b.2) else strLe a.1 b.1

def insertPairSorted (a : String × Int) : List (String × Int) → List (String × Int)
  | [] => [a]
  | b :: bs => if pairLe a b then a :: b :: bs else b :: insertPairSorted a bs

def sortPairs (l : List (String × Int)) : List (String × Int) :=
  l.foldr insertPairSorted []

/-- The spec's grouping signature: the sorted list of (targetName, score)
pairs of an Assignment (its `profile_scores`). -/
def specSignature (cf : CustomFormatAssignment) : List (String × Int) :=
  sortPairs cf.profile_scores

/-- Assignment with per-target pairs `[("A",100),("B",200)]` and the legacy
fields the editor derives from them (`score` = first pair's score,
`profiles` = pair names). -/
def sigCfX : CustomFormatAssignment :=
  { trash_id := some "id1", score := 100, profiles := ["A", "B"],
    profile_scores := [("A", 100), ("B", 200)] }

/-- Same legacy fields as `sigCfX` but pairs `[("A",100),("B",300)]`. -/
def sigCfY : CustomFormatAssignment :=
  { trash_id := some "id2", score := 100, profiles := ["A", "B"],
    profile_scores := [("A", 100), ("B", 300)] }

def sigInst : InstanceConfig := { name := "movies", active_cfs := [sigCfX, sigCfY] }

/-- C5 counterexample: the claim says the grouper partitions by the sorted
(targetName, score)-pair signature.  The code keys on
`(cf.score, tuple(sorted(cf.profiles)))` (yaml_generator.py line 92) — the
deprecated single score and the profile names only — so two Assignments with
**different** pair signatures land in one shared block, whose score list even
replicates the first score for every profile. -/
theorem c5_signature_counterexample :
    specSignature sigCfX ≠ specSignature sigCfY
    ∧ (generate_instance_config sigInst).custom_formats
        = some [{ trash_ids := [some "id1", some "id2"],
                  assign_scores_to := some [("A", 100), ("B", 100)] }] := by
  constructor <;> decide

/-- Two Assignments whose pair signature is `[("VF",100)]`, with different
item ids. -/
def vfCf1 : CustomFormatAssignment :=
  { trash_id := some "id1", score := 100, profiles := ["VF"],
    profile_scores := [("VF", 100)] }

def vfCf2 : CustomFormatAssignment :=
  { trash_id := some "id2", score := 100, profiles := ["VF"],
    profile_scores := [("VF", 100)] }

def vfInst : InstanceConfig := { name := "movies", active_cfs := [vfCf1, vfCf2] }

/-- C5 (amended): the grouper partitions the Assignment list by the key
`(score, sorted profiles)` — the legacy single score and sorted profile-name
tuple, not the per-target pair signature — producing, in first-seen key
order, exactly one block per key (keys are distinct) that lists every item id
with that key in input order; the claim's concrete test vector (two
Assignments with pairs `[("VF",100)]`, hence the same key `(100, ["VF"])`)
yields a single block with both ids and one shared target-score list. -/
theorem c5_grouping_amended :
    (∀ cfs : List CustomFormatAssignment, buildGroups cfs = groupsRepr cfs)
    ∧ (∀ cfs : List CustomFormatAssignment, ((buildGroups cfs).map Prod.fst).Nodup)
    ∧ (generate_instance_config vfInst).custom_formats
        = some [{ trash_ids := [some "id1", some "id2"],
                  assign_scores_to := some [("VF", 100)] }] := by
  refine ⟨buildGroups_eq_groupsRepr, ?_, by decide⟩
  intro cfs
  rw [buildGroups_eq_groupsRepr]
  unfold groupsRepr
  rw [List.map_map]
  have heq : (Prod.fst ∘ fun k => (k, List.map (fun x => x.trash_id)
      (List.filter (fun c => decide (groupKey c = k)) cfs))) = fun k => k := by
    funext k
    rfl
  rw [heq, List.map_id']
  exact nodup_firstSeen (cfs.map groupKey)

/-- C7: compiling the same Assignment Model twice produces identical output
structures, with identical grouping content and ordering.  The compiler of
the source reads only its `InstanceConfig` argument and mutates nothing
outside its local variables, so its embedding is a pure function and the two
runs coincide definitionally; together with `c5_grouping_amended`'s closed
form, the block order is a function of the input order alone. -/
theorem c7_generate_deterministic (inst : InstanceConfig) :
    generate_instance_config inst = generate_instance_config inst
    ∧ cfBlocks inst.active_cfs = cfBlocks inst.active_cfs :=
  ⟨rfl, rfl⟩

/-! ## The baseline loader (`CFEditor.load_assignments_from_template`)

src/ui/widgets/cf_editor.py lines 272-338.  `self.data` is the list of
custom-format objects; `self.active_assignments` is the Assignment Model,
a dict keyed by trash id. -/

/-- One element of `self.data` restricted to the fields the loader reads. -/
structure CFData where
  trash_id : Option String := none
  name : Option String := none
  description : Option String := none
  trash_scores : List (String × Int) := []
deriving DecidableEq

/-- The `names` field of a template entry: a string or a list of names. -/
inductive NamesField where
  | strVal (s : String)
  | listVal (l : List String)
deriving DecidableEq

/-- One element of `assign_scores_to`: `{"name": ..., "score": ...}`. -/
structure AssignEntry where
  name : String
  score : Option Int := none
deriving DecidableEq

/-- One element of the template's `custom_formats` list. -/
structure TemplateCFEntry where
  trash_ids : Option (List String) := none
  names : Option NamesField := none
  assign_scores_to : Option (List AssignEntry) := none
deriving DecidableEq

/-- `names = entry.get("names"); if names: ...` with Python truthiness
(missing, empty string and empty list all skip), then
`if isinstance(names, str): names = [names]`. -/
def namesToList : Option NamesField → List String
  | none => []
  | some (.strVal s) => if s = "" then [] else [s]
  | some (.listVal l) => if l = [] then [] else l

/-- The name-resolution loop (lines 288-291): append the `trash_id` of the
first catalog object with a matching `name` — whatever that id is, `None`
included. -/
def resolvedNameIds (data : List CFData) (entry : TemplateCFEntry) :
    List (Option String) :=
  (namesToList entry.names).foldl (fun acc nm =>
    match data.find? (fun x => x.name == some nm) with
    | some f => acc ++ [f.trash_id]
    | none => acc) []

/-- The id list the per-entry loop iterates over: the entry's own
`trash_ids` followed by the name-resolved ids. -/
def expandedIds (data : List CFData) (entry : TemplateCFEntry) :
    List (Option String) :=
  (entry.trash_ids.getD []).map some ++ resolvedNameIds data entry

/-- `next((x for x in self.data if x.get('trash_id') == tid), None)`. -/
def findCF (data : List CFData) (tid : Option String) : Option CFData :=
  data.find? (fun x => x.trash_id == tid)

/-- Build the `CustomFormatAssignment` stored for one id (lines 301-338):
per-target scores come from the entry's `assign_scores_to`, explicit when
given, inferred by `_infer_score` otherwise; the legacy fields are derived
from the per-target list. -/
def mkAssignment (tid : Option String) (cf : CFData) (entry : TemplateCFEntry) :
    CustomFormatAssignment :=
  let default_score := tableDefault cf.trash_scores
  let profile_scores := (entry.assign_scores_to.getD []).map (fun a =>
    (a.name, match a.score with
      | some s => s
      | none => infer_score cf.trash_scores a.name default_score))
  { trash_id := tid,
    name := cf.name,
    description := cf.description.getD "",
    score := match profile_scores with
      | [] => default_score
      | p :: _ => p.2,
    default_score := default_score,
    profiles := profile_scores.map Prod.fst,
    profile_scores := profile_scores }

/-- `load_assignments_from_template(cf_list)`: clear the model
(`self.active_assignments.clear()`, so the previous state is discarded),
then for every entry and every expanded id that resolves in the catalog,
store the built Assignment under its id (dict write: last id occurrence
wins). -/
def load_assignments_from_template
    (_prev : List (Option String × CustomFormatAssignment))
    (data : List CFData) (cf_list : List TemplateCFEntry) :
    List (Option String × CustomFormatAssignment) :=
  cf_list.foldl (fun m entry =>
    if expandedIds data entry = [] then m
    else (expandedIds data entry).foldl (fun m tid =>
      match findCF data tid with
      | none => m
      | some cf => upsert m tid (mkAssignment tid cf entry)) m) []

/-- The sequence of dict writes `self.active_assignments[tid] = ...` the
loader performs, in order. -/
def assignmentWrites (data : List CFData) (cf_list : List TemplateCFEntry) :
    List ((Option String) × CustomFormatAssignment) :=
  cf_list.flatMap (fun entry => (expandedIds data entry).filterMap (fun tid =>
    (findCF data tid).map (fun cf => (tid, mkAssignment tid cf entry))))

/-- Dict write followed by lookup: the written key reads back the new value,
every other key is untouched. -/
lemma lookup_upsert {K V : Type} [DecidableEq K] (m : List (K × V))
    (q : K) (v : V) (k : K) :
    lookupA (upsert m q v) k = if k = q then some v else lookupA m k := by
  unfold upsert lookupA
  by_cases hany : m.any (fun e => decide (e.1 = q)) = true
  · rw [if_pos hany]
    have hpred : (fun e : K × V => decide (e.1 = k))
        ∘ (fun e : K × V => if e.1 = q then (q, v) else e)
          = fun e : K × V => decide (e.1 = k) := by
      funext e
      by_cases he : e.1 = q
      · simp [Function.comp, he]
      · simp [Function.comp, he]
    rw [List.find?_map, hpred]
    by_cases hk : k = q
    · subst hk
      rw [if_pos rfl]
      cases hf : m.find? (fun e => decide (e.1 = k)) with
      | none =>
        exfalso
        obtain ⟨e, he, hpe⟩ := List.any_eq_true.mp hany
        have := List.find?_eq_none.mp hf e he
        simp only [decide_eq_true_eq] at this hpe
        exact this hpe
      | some e =>
        have hpe := List.find?_some hf
        simp only [decide_eq_true_eq] at hpe
        simp [hpe]
    · rw [if_neg hk]
      cases hf : m.find? (fun e => decide (e.1 = k)) with
      | none => simp
      | some e =>
        have hpe := List.find?_some hf
        simp only [decide_eq_true_eq] at hpe
        have hne : ¬ e.1 = q := fun he => hk (hpe ▸ he)
        simp [hne]
  · rw [if_neg hany]
    have hnone : m.find? (fun e => decide (e.1 = q)) = none := by
      refine List.find?_eq_none.mpr ?_
      intro e he
      have := List.any_eq_false.mp (Bool.eq_false_iff.mpr hany) e he
      simpa using this
    by_cases hk : k = q
    · subst hk
      have hnone2 : m.find? (fun e => decide (e.1 = k)) = none := hnone
      rw [if_pos rfl, List.find?_append, hnone2]
      simp [List.find?]
    · rw [if_neg hk, List.find?_append]
      cases hf : m.find? (fun e => decide (e.1 = k)) with
      | none =>
        have hq : ¬ (q = k) := fun he => hk he.symm
        simp [List.find?, hq]
      | some e => simp

/-- Looking up after a sequence of dict writes returns the value of the last
write to that key. -/
lemma lookup_foldl_upsert {K V : Type} [DecidableEq K]
    (ws : List (K × V)) (k : K) :
    lookupA (ws.foldl (fun m p => upsert m p.1 p.2) []) k
      = (ws.reverse.find? (fun p => decide (p.1 = k))).map Prod.snd := by
  induction ws using List.reverseRecOn with
  | nil => rfl
  | append_singleton ws2 w ih =>
    rw [List.foldl_append, List.foldl_cons, List.foldl_nil, lookup_upsert,
      List.reverse_append]
    by_cases hk : k = w.1
    · rw [if_pos hk]
      have hw : (fun p : K × V => decide (p.1 = k)) w = true := by
        simp [hk]
      simp [List.find?, hk]
    · rw [if_neg hk]
      have hw : ¬ (w.1 = k) := fun he => hk he.symm
      simp [List.find?, hw, ih]

/-- The per-entry id loop is the write sequence of that entry. -/
lemma inner_foldl_eq (data : List CFData) (entry : TemplateCFEntry)
    (tids : List (Option String)) :
    ∀ m, tids.foldl (fun m tid =>
        match findCF data tid with
        | none => m
        | some cf => upsert m tid (mkAssignment tid cf entry)) m
      = (tids.filterMap (fun tid => (findCF data tid).map
          (fun cf => (tid, mkAssignment tid cf entry)))).foldl
            (fun m p => upsert m p.1 p.2) m := by
  induction tids with
  | nil => intro m; rfl
  | cons t ts ih =>
    intro m
    cases hf : findCF data t with
    | none =>
      rw [List.foldl_cons]
      simp only [hf, List.filterMap_cons, Option.map_none']
      exact ih m
    | some cf =>
      rw [List.foldl_cons]
      simp only [hf, List.filterMap_cons, Option.map_some']
      rw [List.foldl_cons]
      exact ih _

/-- The whole loader is the fold of its write sequence over the cleared
model. -/
lemma load_eq_writes (prev : List (Option String × CustomFormatAssignment))
    (data : List CFData) (cf_list : List TemplateCFEntry) :
    load_assignments_from_template prev data cf_list
      = (assignmentWrites data cf_list).foldl (fun m p => upsert m p.1 p.2) [] := by
  unfold load_assignments_from_template assignmentWrites
  generalize ([] : List (Option String × CustomFormatAssignment)) = m0
  induction cf_list generalizing m0 with
  | nil => rfl
  | cons e rest ih =>
    rw [List.foldl_cons, List.flatMap_cons, List.foldl_append]
    by_cases he : expandedIds data e = []
    · rw [if_pos he, he]
      simp only [List.filterMap_nil, List.foldl_nil]
      exact ih m0
    · rw [if_neg he, inner_foldl_eq]
      exact ih _

/-- C8 (amended): `loadBaseline` fully replaces the model — the result is
independent of the previous state — and afterwards each id maps to the
Assignment of the **last** write naming it, where the writes range over the
expanded entry ids **that resolve in the catalog data** (unresolvable ids are
skipped); each per-target score is the explicit one when given and the §4.3
inference otherwise. -/
theorem c8_load_baseline_amended
    (prev prev2 : List (Option String × CustomFormatAssignment))
    (data : List CFData) (l : List TemplateCFEntry) (tid : Option String) :
    load_assignments_from_template prev data l
        = load_assignments_from_template prev2 data l
    ∧ lookupA (load_assignments_from_template prev data l) tid
        = ((assignmentWrites data l).reverse.find?
            (fun p => decide (p.1 = tid))).map Prod.snd
    ∧ ∀ (cf : CFData) (entry : TemplateCFEntry),
        (mkAssignment tid cf entry).profile_scores
          = (entry.assign_scores_to.getD []).map (fun a =>
              (a.name, match a.score with
                | some sc => sc
                | none => infer_score cf.trash_scores a.name
                    (tableDefault cf.trash_scores))) :=
  ⟨rfl,
   by rw [load_eq_writes prev data l, lookup_foldl_upsert],
   fun _ _ => rfl⟩

/-- An entry whose only id does not occur in the catalog data. -/
def missEntry : TemplateCFEntry := { trash_ids := some ["x"] }

/-- C8 counterexample: the claim promises exactly one Assignment per distinct
item id in the input list, but an id that resolves to no catalog object is
skipped (`if not cf_data: continue`, src/ui/widgets/cf_editor.py line 299):
the id `"x"` is in the input, yet the model ends up empty. -/
theorem c8_unresolved_id_counterexample :
    expandedIds ([] : List CFData) missEntry = [some "x"]
    ∧ load_assignments_from_template [] [] [missEntry] = []
    ∧ lookupA (load_assignments_from_template [] [] [missEntry]) (some "x")
        = none := by
  refine ⟨by decide, by decide, by decide⟩

end RecyclarrConfigurator
